import Mathlib

/-!
Verification development for the Markdown validator
(`src/agent/tools/markdown_validator.py`).

The Python source is shallowly embedded below: each checker method of
`MarkdownValidator` becomes a Lean function over the document's lines
(`List (List Char)`), filesystem access (`os.path.exists`) and the network
probe (`requests.head`) become explicit parameters, and the regular
expressions of the source are hand-translated into character-level scanners
with the same matching semantics (leftmost, greedy, non-overlapping).
-/

/-- ASCII whitespace as matched by Python's `\s` and `str.strip()`
(unicode whitespace is not modelled; documents are assumed ASCII). -/
def isPySpace (c : Char) : Bool :=
  c == ' ' || c == '\t' || c == '\n' || c == '\r' || c == '\x0b' || c == '\x0c'

/-- Word characters as matched by Python's `\w` (ASCII fragment). -/
def isPyWord (c : Char) : Bool :=
  c.isAlphanum || c == '_'

/-- Drop a trailing run of characters satisfying `p` (Python `rstrip`). -/
def rstripBy (p : Char → Bool) (l : List Char) : List Char :=
  (l.reverse.dropWhile p).reverse

/-- Python `str.strip()` on a character list. -/
def stripList (l : List Char) : List Char :=
  rstripBy isPySpace (l.dropWhile isPySpace)

/-- Python `str.split(sep)` for a single-character separator: splits at every
occurrence, keeping empty segments; the result is always nonempty. -/
def splitChar (sep : Char) : List Char → List (List Char)
  | [] => [[]]
  | c :: cs =>
    if c == sep then [] :: splitChar sep cs
    else
      match splitChar sep cs with
      | r :: rs => (c :: r) :: rs
      | [] => [[c]]

/-- Python `str.lower()` (ASCII fragment). -/
def lowerStr (s : List Char) : String :=
  String.mk (s.map Char.toLower)

/-- Python `enumerate(lines, start)`: pair each element with its 1-based index. -/
def pyEnum : Nat → List α → List (Nat × α)
  | _, [] => []
  | i, a :: as => (i, a) :: pyEnum (i + 1) as

/-- Concatenation of the images of `f`, in order (used for the per-line
issue lists appended by a checker's scan). -/
def concatMap (f : α → List β) : List α → List β
  | [] => []
  | a :: as => f a ++ concatMap f as

/-- The `ValidationIssue` dataclass of the source. -/
structure ValidationIssue where
  line_number : Nat
  issue_type : String
  severity : String
  description : String
  original_text : String
  suggested_fix : String
deriving DecidableEq, Repr

/-- Outcome of the optional reachability probe (`requests.head`):
an HTTP status, a timeout, or any other transport failure. -/
inductive ProbeRes where
  | status (code : Nat)
  | timeout
  | netErr
deriving DecidableEq, Repr

/-- The external capabilities the validator consults: filesystem existence
(`os.path.exists`) and the network probe. -/
structure Env where
  fs : String → Bool
  probe : String → ProbeRes

/-- `os.path.join(base, p)` for the paths the validator builds. -/
def osJoin (base : String) (p : String) : String :=
  if p.data.head? = some '/' then p else base ++ "/" ++ p

/-- Failure modes of `load_file`. -/
inductive LoadErr where
  | notFound
  | readErr (msg : String)
deriving DecidableEq, Repr

/-- The single synthetic issue appended by `load_file` on failure. -/
def fileErrorIssue (path : String) : LoadErr → ValidationIssue
  | .notFound =>
    ⟨0, "file_error", "error", "File not found: " ++ path, "",
      "Verify the file path is correct"⟩
  | .readErr msg =>
    ⟨0, "file_error", "error", "Error reading file: " ++ msg, "",
      "Check file permissions and encoding"⟩

/-- `self.content.split('\n')`: the loaded document's line list. -/
def linesOf (content : String) : List (List Char) :=
  splitChar '\n' content.data

/-! ## Header checker (`validate_headers`)

The pattern `^(#{1,6})\s*(.*)$` matches any line starting with at least one
`#`; the first group greedily captures at most six hashes, the second group
is the remainder after the greedy whitespace run. -/

/-- Result of matching `^(#{1,6})\s*(.*)$` against a line: the captured
level (`len(hashes)`) and `match.group(2).strip()`. `none` when the line
does not start with `#`. -/
def headerMatch (line : List Char) : Option (Nat × List Char) :=
  let run := (line.takeWhile (fun c => c == '#')).length
  if run = 0 then none
  else
    let k := min run 6
    let grp2 := (line.drop k).dropWhile isPySpace
    some (k, stripList grp2)

/-- Issues appended by `validate_headers` for one line, together with the
updated `prev_level`. -/
def headerLine (prev : Nat) (i : Nat) (line : List Char) : Nat × List ValidationIssue :=
  match headerMatch line with
  | none => (prev, [])
  | some (level, text) =>
    let hashes : List Char := List.replicate level '#'
    let missingSpace : List ValidationIssue :=
      if (line.drop level).head? ≠ some ' ' ∧ text ≠ [] then
        [⟨i, "header_format", "warning", "Missing space after header hashes",
          String.mk line, String.mk hashes ++ " " ++ String.mk text⟩]
      else []
    let emptyHeader : List ValidationIssue :=
      if text = [] then
        [⟨i, "empty_header", "warning", "Empty header text",
          String.mk line, "Add descriptive header text"⟩]
      else []
    let hierarchy : List ValidationIssue :=
      if 0 < prev ∧ prev + 1 < level then
        [⟨i, "header_hierarchy", "info",
          "Header level skipped from H" ++ toString prev ++ " to H" ++ toString level,
          String.mk line, String.mk (List.replicate (prev + 1) '#') ++ " " ++ String.mk text⟩]
      else []
    let trailing : List ValidationIssue :=
      if text.getLast? = some '#' then
        [⟨i, "trailing_hashes", "info", "Trailing hashes in header (not recommended)",
          String.mk line,
          String.mk hashes ++ " " ++ String.mk (rstripBy isPySpace (rstripBy (fun c => c == '#') text))⟩]
      else []
    (level, missingSpace ++ emptyHeader ++ hierarchy ++ trailing)

/-- The scan loop of `validate_headers`, threading `prev_level`. -/
def headersGo : Nat → Nat → List (List Char) → List ValidationIssue
  | _, _, [] => []
  | prev, i, l :: rest =>
    let r := headerLine prev i l
    r.2 ++ headersGo r.1 (i + 1) rest

/-- `MarkdownValidator.validate_headers`. -/
def validate_headers (lines : List (List Char)) : List ValidationIssue :=
  headersGo 0 1 lines

/-! ## Link/reference checker (`validate_links`)

Scanners for the three patterns of the source:
inline links `\[([^\]]*)\]\(([^)]*)\)`, reference links
`\[([^\]]+)\]\[([^\]]*)\]`, and definitions `^\[([^\]]+)\]:\s*(.+)$`. -/

/-- Attempt an inline-link match at the head of the list; on success return
the two captured groups and the remainder after the match. -/
def linkAt : List Char → Option (List Char × List Char × List Char)
  | '[' :: cs =>
    match cs.dropWhile (fun c => c ≠ ']') with
    | ']' :: '(' :: cs2 =>
      match cs2.dropWhile (fun c => c ≠ ')') with
      | ')' :: rest =>
        some (cs.takeWhile (fun c => c ≠ ']'), cs2.takeWhile (fun c => c ≠ ')'), rest)
      | _ => none
    | _ => none
  | _ => none

theorem linkAt_length {l t u r : List Char} (h : linkAt l = some (t, u, r)) :
    r.length < l.length := by
  rw [linkAt.eq_def] at h
  split at h
  next cs =>
    split at h
    next cs2 hdrop =>
      split at h
      next rest hdrop2 =>
        cases h
        have h1 : (']' :: '(' :: cs2).length ≤ cs.length := by
          rw [← hdrop]; exact (List.dropWhile_sublist _).length_le
        have h2 : (')' :: r).length ≤ cs2.length := by
          rw [← hdrop2]; exact (List.dropWhile_sublist _).length_le
        simp at h1 h2
        simp
        omega
      next => simp at h
    next => simp at h
  next => simp at h

/-- `finditer` for the inline-link pattern: leftmost, non-overlapping.
Structured with a fuel argument (initialised to the line length, which the
scan never exhausts since every step consumes at least one character). -/
def findLinksF : Nat → List Char → List (List Char × List Char)
  | 0, _ => []
  | _, [] => []
  | fuel + 1, c :: cs =>
    match linkAt (c :: cs) with
    | some (t, u, r) => (t, u) :: findLinksF fuel r
    | none => findLinksF fuel cs

/-- `finditer` for the inline-link pattern over a whole line. -/
def findLinks (l : List Char) : List (List Char × List Char) :=
  findLinksF l.length l

theorem findLinksF_fuel : ∀ (f1 f2 : Nat) (l : List Char),
    l.length ≤ f1 → l.length ≤ f2 → findLinksF f1 l = findLinksF f2 l := by
  intro f1
  induction f1 with
  | zero =>
    intro f2 l h1 _
    have : l = [] := List.length_eq_zero.mp (Nat.le_zero.mp h1)
    subst this
    cases f2 <;> rfl
  | succ f ih =>
    intro f2 l h1 h2
    match l with
    | [] => cases f2 <;> rfl
    | c :: cs =>
      match f2 with
      | 0 => simp at h2
      | g + 1 =>
        simp only [findLinksF]
        split
        next t u r heq =>
          have hr := linkAt_length heq
          simp at h1 h2 hr
          rw [ih g r (by omega) (by omega)]
        next =>
          simp at h1 h2
          rw [ih g cs (by omega) (by omega)]

theorem findLinks_nil : findLinks [] = [] := rfl

theorem findLinks_cons (c : Char) (cs : List Char) :
    findLinks (c :: cs) =
      match linkAt (c :: cs) with
      | some (t, u, r) => (t, u) :: findLinks r
      | none => findLinks cs := by
  show findLinksF (cs.length + 1) (c :: cs) = _
  simp only [findLinksF]
  split
  next t u r heq =>
    have hr := linkAt_length heq
    simp at hr
    rw [findLinks, findLinksF_fuel cs.length r.length r (by omega) (by omega)]
  next =>
    rw [findLinks]

/-- Attempt a reference-link match `[text][ref]` at the head of the list
(the text group must be nonempty). -/
def refAt : List Char → Option (List Char × List Char × List Char)
  | '[' :: cs =>
    if cs.takeWhile (fun c => c ≠ ']') = [] then none
    else
      match cs.dropWhile (fun c => c ≠ ']') with
      | ']' :: '[' :: cs2 =>
        match cs2.dropWhile (fun c => c ≠ ']') with
        | ']' :: rest =>
          some (cs.takeWhile (fun c => c ≠ ']'), cs2.takeWhile (fun c => c ≠ ']'), rest)
        | _ => none
      | _ => none
  | _ => none

theorem refAt_length {l t u r : List Char} (h : refAt l = some (t, u, r)) :
    r.length < l.length := by
  rw [refAt.eq_def] at h
  split at h
  next cs =>
    split at h
    next => simp at h
    next =>
      split at h
      next cs2 hdrop =>
        split at h
        next rest hdrop2 =>
          cases h
          have h1 : (']' :: '[' :: cs2).length ≤ cs.length := by
            rw [← hdrop]; exact (List.dropWhile_sublist _).length_le
          have h2 : (']' :: r).length ≤ cs2.length := by
            rw [← hdrop2]; exact (List.dropWhile_sublist _).length_le
          simp at h1 h2
          simp
          omega
        next => simp at h
      next => simp at h
  next => simp at h

/-- `finditer` for the reference-link pattern (fuelled like `findLinksF`). -/
def findRefsF : Nat → List Char → List (List Char × List Char)
  | 0, _ => []
  | _, [] => []
  | fuel + 1, c :: cs =>
    match refAt (c :: cs) with
    | some (t, u, r) => (t, u) :: findRefsF fuel r
    | none => findRefsF fuel cs

/-- `finditer` for the reference-link pattern over a whole line. -/
def findRefs (l : List Char) : List (List Char × List Char) :=
  findRefsF l.length l

/-- The anchored definition pattern `^\[([^\]]+)\]:\s*(.+)$`: at most one
match per line, at the line start.  When everything after the colon is
whitespace, backtracking leaves the last whitespace character to `(.+)`. -/
def refDefOf (line : List Char) : Option (List Char × List Char) :=
  match line with
  | '[' :: cs =>
    let rid := cs.takeWhile (fun c => c ≠ ']')
    if rid = [] then none
    else
      match cs.dropWhile (fun c => c ≠ ']') with
      | ']' :: ':' :: rest =>
        let tail := rest.dropWhile isPySpace
        if tail ≠ [] then some (rid, tail)
        else
          match rest.getLast? with
          | some c => some (rid, [c])
          | none => none
      | _ => none
  | _ => none

/-- Pass 1 of `validate_links`: fold all definition lines into the
reference dictionary; a later definition overwrites an earlier one. -/
def refTableGo : (String → Option (Nat × String)) → Nat → List (List Char) →
    (String → Option (Nat × String))
  | t, _, [] => t
  | t, i, l :: rest =>
    let t2 := match refDefOf l with
      | some (rid, u) => Function.update t (lowerStr rid) (some (i, String.mk u))
      | none => t
    refTableGo t2 (i + 1) rest

/-- The reference table built by pass 1 (`reference_definitions`). -/
def refTable (lines : List (List Char)) : String → Option (Nat × String) :=
  refTableGo (fun _ => none) 1 lines

/-- `ref_id = match.group(2).lower() if match.group(2) else match.group(1).lower()`. -/
def resolveRefId (text rid : List Char) : String :=
  if rid ≠ [] then lowerStr rid else lowerStr text

/-- The `undefined_reference` issue constructed by pass 2. -/
def undefRefIssue (i : Nat) (text rid : List Char) : ValidationIssue :=
  let r := resolveRefId text rid
  ⟨i, "undefined_reference", "error", "Undefined link reference: [" ++ r ++ "]",
    String.mk ('[' :: text ++ ']' :: '[' :: rid ++ [']']),
    "Add reference definition: [" ++ r ++ "]: https://example.com"⟩

/-- Python `str.startswith` on a character list. -/
def hasPre (pre : String) (l : List Char) : Bool :=
  pre.data.isPrefixOf l

/-- The `netloc` component produced by `urlparse` for the URLs reaching the
external branch of `_validate_url`: the characters between `://` and the
first `/`, `?` or `#` for `http`/`https` URLs, and empty for the schemes
without `//` (`mailto:`, `tel:`). -/
def urlNetloc (url : List Char) : List Char :=
  if hasPre "http://" url then
    (url.drop 7).takeWhile (fun c => !(c == '/' || c == '?' || c == '#'))
  else if hasPre "https://" url then
    (url.drop 8).takeWhile (fun c => !(c == '/' || c == '?' || c == '#'))
  else []

/-- `MarkdownValidator._validate_url`. -/
def validateUrl (env : Env) (base : String) (i : Nat) (url : List Char)
    (orig : String) : List ValidationIssue :=
  if url.head? = some '#' then []
  else if !(hasPre "http://" url || hasPre "https://" url ||
      hasPre "mailto:" url || hasPre "tel:" url) then
    let path := osJoin base (String.mk (url.takeWhile (fun c => c ≠ '#')))
    if env.fs path then []
    else
      [⟨i, "broken_local_link", "error", "Local file not found: " ++ String.mk url,
        orig, "Verify file exists at: " ++ path⟩]
  else
    if urlNetloc url = [] then
      [⟨i, "invalid_url_format", "error", "Invalid URL format: " ++ String.mk url,
        orig, "Use full URL with scheme: https://" ++ String.mk url⟩]
    else
      match env.probe (String.mk url) with
      | .status code =>
        if 400 ≤ code then
          [⟨i, "broken_external_link", "error",
            "Broken link (HTTP " ++ toString code ++ "): " ++ String.mk url,
            orig, "Update URL or remove the link"⟩]
        else []
      | .timeout =>
        [⟨i, "link_timeout", "warning", "Link timed out: " ++ String.mk url,
          orig, "Verify URL is accessible"⟩]
      | .netErr => []

/-- Issues appended for one inline-link match in pass 2. -/
def inlineLinkIssues (env : Env) (base : String) (i : Nat)
    (text urlRaw : List Char) : List ValidationIssue :=
  let whole := String.mk ('[' :: text ++ ']' :: '(' :: urlRaw ++ [')'])
  let url := stripList urlRaw
  (if text = [] then
    [⟨i, "empty_link_text", "warning", "Empty link text", whole,
      "[descriptive text](" ++ String.mk url ++ ")"⟩]
   else []) ++
  (if url = [] then
    [⟨i, "empty_url", "error", "Empty URL in link", whole,
      "[" ++ String.mk text ++ "](https://example.com)"⟩]
   else validateUrl env base i url whole)

/-- Issues appended for one reference-link match in pass 2. -/
def refLinkIssues (tbl : String → Option (Nat × String)) (i : Nat)
    (text rid : List Char) : List ValidationIssue :=
  if tbl (resolveRefId text rid) = none then [undefRefIssue i text rid] else []

/-- All issues appended by pass 2 for one line. -/
def lineLinkIssues (env : Env) (base : String) (tbl : String → Option (Nat × String))
    (i : Nat) (line : List Char) : List ValidationIssue :=
  concatMap (fun m => inlineLinkIssues env base i m.1 m.2) (findLinks line) ++
  concatMap (fun m => refLinkIssues tbl i m.1 m.2) (findRefs line)

/-- `MarkdownValidator.validate_links`. -/
def validate_links (env : Env) (base : String) (lines : List (List Char)) :
    List ValidationIssue :=
  let tbl := refTable lines
  concatMap (fun p => lineLinkIssues env base tbl p.1 p.2) (pyEnum 1 lines)

/-! ## Code block checker (`validate_code_blocks`) -/

/-- Match `^(`{3,}|~{3,})(\w*)$` against the *stripped* line: a run of three
or more identical backticks or tildes, optionally followed by a language
tag of word characters.  Returns the fence character and run length. -/
def parseFence (line : List Char) : Option (Char × Nat) :=
  match stripList line with
  | [] => none
  | c :: cs =>
    if c = '`' ∨ c = '~' then
      if 2 ≤ (cs.takeWhile (fun x => x == c)).length ∧
          (cs.dropWhile (fun x => x == c)).all isPyWord then
        some (c, (cs.takeWhile (fun x => x == c)).length + 1)
      else none
    else none

/-- The fence state of `validate_code_blocks`: `in_fenced_block`,
`block_start_line`, `fence_char`, `fence_count`. -/
structure FenceSt where
  inBlock : Bool
  startLine : Nat
  fenceChar : Option Char
  fenceCount : Nat
deriving DecidableEq, Repr

/-- Initial fence state (`False, 0, None, 0`). -/
def initFence : FenceSt := ⟨false, 0, none, 0⟩

/-- The per-line fence transition of `validate_code_blocks`. -/
def fenceStep (st : FenceSt) (i : Nat) (line : List Char) : FenceSt :=
  match parseFence line with
  | none => st
  | some (c, n) =>
    if st.inBlock = false then ⟨true, i, some c, n⟩
    else if st.fenceChar = some c ∧ st.fenceCount ≤ n then
      ⟨false, st.startLine, none, st.fenceCount⟩
    else st

/-- `line.count('`')`. -/
def countBt (l : List Char) : Nat :=
  (l.filter (fun c => c == '`')).length

/-- `line.count('```')`: non-overlapping occurrences, scanned from the left. -/
def countTriple : List Char → Nat
  | '`' :: '`' :: '`' :: rest => countTriple rest + 1
  | _ :: rest => countTriple rest
  | [] => 0

/-- The inline-backtick check of `validate_code_blocks`, performed with the
*updated* fence state of the same iteration. -/
def btIssue (st : FenceSt) (i : Nat) (line : List Char) : List ValidationIssue :=
  if st.inBlock then []
  else
    if (countBt line - 3 * countTriple line) % 2 ≠ 0 ∧
        ¬ hasPre "```" (stripList line) then
      [⟨i, "unmatched_backticks", "warning",
        "Possible unmatched inline code backticks", String.mk line,
        "Ensure backticks are properly paired"⟩]
    else []

/-- The scan loop of `validate_code_blocks`: final fence state and the
issues appended during the loop. -/
def cbScan : Nat → FenceSt → List (List Char) → FenceSt × List ValidationIssue
  | _, st, [] => (st, [])
  | i, st, l :: rest =>
    let st2 := fenceStep st i l
    let r := cbScan (i + 1) st2 rest
    (r.1, btIssue st2 i l ++ r.2)

/-- The `unclosed_code_block` issue appended after the loop. -/
def unclosedIssue (lines : List (List Char)) (st : FenceSt) : ValidationIssue :=
  ⟨st.startLine, "unclosed_code_block", "error", "Unclosed fenced code block",
    String.mk (lines.getD (st.startLine - 1) []),
    "Add closing fence: " ++
      String.mk (List.replicate st.fenceCount (if st.fenceChar = some '`' then '`' else '~'))⟩

/-- `MarkdownValidator.validate_code_blocks`. -/
def validate_code_blocks (lines : List (List Char)) : List ValidationIssue :=
  let r := cbScan 1 initFence lines
  if r.1.inBlock then r.2 ++ [unclosedIssue lines r.1] else r.2

/-! ## List checker (`validate_lists`) -/

/-- Match `^(\s*)([-*+]|\d+[.)])\s+(.*)$`: returns the indentation width,
the marker characters, and the content group. -/
def listMatch (line : List Char) : Option (Nat × List Char × List Char) :=
  match line.dropWhile isPySpace with
  | [] => none
  | c :: cs =>
    if c = '-' ∨ c = '*' ∨ c = '+' then
      if cs.takeWhile isPySpace = [] then none
      else some ((line.takeWhile isPySpace).length, [c], cs.dropWhile isPySpace)
    else if c.isDigit then
      match (c :: cs).dropWhile Char.isDigit with
      | p :: cs2 =>
        if p = '.' ∨ p = ')' then
          if cs2.takeWhile isPySpace = [] then none
          else some ((line.takeWhile isPySpace).length,
            (c :: cs).takeWhile Char.isDigit ++ [p], cs2.dropWhile isPySpace)
        else none
      | [] => none
    else none

/-- Issues appended by `validate_lists` for one matching line. -/
def listIssues (prevWas : Bool) (i : Nat) (line : List Char)
    (ind : Nat) (marker content : List Char) : List ValidationIssue :=
  (if prevWas ∧ 0 < ind ∧ ind % 2 ≠ 0 ∧ ind % 4 ≠ 0 then
    [⟨i, "inconsistent_indent", "info",
      "Non-standard list indentation (use 2 or 4 spaces)", String.mk line,
      String.mk (List.replicate (ind / 2 * 2) ' ') ++
        String.mk marker ++ " " ++ String.mk content⟩]
   else []) ++
  (if stripList content = [] then
    [⟨i, "empty_list_item", "warning", "Empty list item", String.mk line,
      "Add content or remove empty item"⟩]
   else [])

/-- The scan loop of `validate_lists`, threading `prev_was_list`. -/
def listsGo : Bool → Nat → List (List Char) → List ValidationIssue
  | _, _, [] => []
  | prevWas, i, l :: rest =>
    match listMatch l with
    | some (ind, marker, content) =>
      listIssues prevWas i l ind marker content ++ listsGo true (i + 1) rest
    | none =>
      listsGo (if stripList l ≠ [] then false else prevWas) (i + 1) rest

/-- `MarkdownValidator.validate_lists`. -/
def validate_lists (lines : List (List Char)) : List ValidationIssue :=
  listsGo false 1 lines

/-! ## Image checker (`validate_images`) -/

/-- Attempt an image match `!\[([^\]]*)\]\(([^)]*)\)` at the head. -/
def imgAt : List Char → Option (List Char × List Char × List Char)
  | '!' :: cs => linkAt cs
  | _ => none

theorem imgAt_length {l t u r : List Char} (h : imgAt l = some (t, u, r)) :
    r.length < l.length := by
  rw [imgAt.eq_def] at h
  split at h
  next cs =>
    have := linkAt_length h
    simp
    omega
  next => simp at h

/-- `finditer` for the image pattern (fuelled like `findLinksF`). -/
def findImgsF : Nat → List Char → List (List Char × List Char)
  | 0, _ => []
  | _, [] => []
  | fuel + 1, c :: cs =>
    match imgAt (c :: cs) with
    | some (t, u, r) => (t, u) :: findImgsF fuel r
    | none => findImgsF fuel cs

/-- `finditer` for the image pattern over a whole line. -/
def findImgs (l : List Char) : List (List Char × List Char) :=
  findImgsF l.length l

theorem findImgsF_fuel : ∀ (f1 f2 : Nat) (l : List Char),
    l.length ≤ f1 → l.length ≤ f2 → findImgsF f1 l = findImgsF f2 l := by
  intro f1
  induction f1 with
  | zero =>
    intro f2 l h1 _
    have : l = [] := List.length_eq_zero.mp (Nat.le_zero.mp h1)
    subst this
    cases f2 <;> rfl
  | succ f ih =>
    intro f2 l h1 h2
    match l with
    | [] => cases f2 <;> rfl
    | c :: cs =>
      match f2 with
      | 0 => simp at h2
      | g + 1 =>
        simp only [findImgsF]
        split
        next t u r heq =>
          have hr := imgAt_length heq
          simp at h1 h2 hr
          rw [ih g r (by omega) (by omega)]
        next =>
          simp at h1 h2
          rw [ih g cs (by omega) (by omega)]

theorem findImgs_cons (c : Char) (cs : List Char) :
    findImgs (c :: cs) =
      match imgAt (c :: cs) with
      | some (t, u, r) => (t, u) :: findImgs r
      | none => findImgs cs := by
  show findImgsF (cs.length + 1) (c :: cs) = _
  simp only [findImgsF]
  split
  next t u r heq =>
    have hr := imgAt_length heq
    simp at hr
    rw [findImgs, findImgsF_fuel cs.length r.length r (by omega) (by omega)]
  next =>
    rw [findImgs]

/-- Issues appended by `validate_images` for one image match. -/
def imageIssues (env : Env) (base : String) (i : Nat)
    (alt urlRaw : List Char) : List ValidationIssue :=
  let whole := String.mk ('!' :: '[' :: alt ++ ']' :: '(' :: urlRaw ++ [')'])
  let url := stripList urlRaw
  (if alt = [] then
    [⟨i, "missing_alt_text", "warning",
      "Image missing alt text (accessibility issue)", whole,
      "![descriptive alt text](" ++ String.mk url ++ ")"⟩]
   else []) ++
  (if url = [] then
    [⟨i, "empty_image_url", "error", "Empty image URL", whole,
      "![" ++ String.mk alt ++ "](path/to/image.png)"⟩]
   else
    if !(hasPre "http://" url || hasPre "https://" url || hasPre "data:" url) then
      if env.fs (osJoin base (String.mk url)) then []
      else
        [⟨i, "missing_image", "error", "Image file not found: " ++ String.mk url,
          whole, "Add image at: " ++ osJoin base (String.mk url)⟩]
    else [])

/-- `MarkdownValidator.validate_images`. -/
def validate_images (env : Env) (base : String) (lines : List (List Char)) :
    List ValidationIssue :=
  concatMap (fun p => concatMap (fun m => imageIssues env base p.1 m.1 m.2) (findImgs p.2))
    (pyEnum 1 lines)

/-! ## Emphasis checker (`validate_emphasis`) -/

/-- `re.sub(r'`[^`]+`', '', line)`: remove inline code spans, leftmost and
non-overlapping. -/
def stripCodeSpansF : Nat → List Char → List Char
  | 0, l => l
  | _, [] => []
  | fuel + 1, c :: cs =>
    if c = '`' then
      match cs.takeWhile (fun x => x ≠ '`'), cs.dropWhile (fun x => x ≠ '`') with
      | [], _ => c :: stripCodeSpansF fuel cs
      | _ :: _, '`' :: rest => stripCodeSpansF fuel rest
      | _ :: _, _ => c :: cs
    else c :: stripCodeSpansF fuel cs

/-- The code-span removal over a whole line. -/
def stripCodeSpans (l : List Char) : List Char :=
  stripCodeSpansF l.length l

/-- `len(re.findall(pat, l))` for a two-character pattern `a b`:
non-overlapping occurrences scanned from the left. -/
def countPair (a b : Char) : List Char → Nat
  | x :: y :: rest =>
    if x = a ∧ y = b then countPair a b rest + 1 else countPair a b (y :: rest)
  | _ => 0

/-- Issues appended by `validate_emphasis` for one line. -/
def emphasisLine (i : Nat) (line : List Char) : List ValidationIssue :=
  if hasPre "```" (stripList line) || hasPre "~~~" (stripList line) then []
  else
    (if countPair '*' '*' (stripCodeSpans line) % 2 ≠ 0 then
      [⟨i, "unmatched_bold", "warning", "Possibly unmatched bold markers (**)",
        String.mk line, "Ensure ** markers are properly paired"⟩]
     else []) ++
    (if countPair '_' '_' (stripCodeSpans line) % 2 ≠ 0 then
      [⟨i, "unmatched_bold", "warning", "Possibly unmatched bold markers (__)",
        String.mk line, "Ensure __ markers are properly paired"⟩]
     else [])

/-- `MarkdownValidator.validate_emphasis`. -/
def validate_emphasis (lines : List (List Char)) : List ValidationIssue :=
  concatMap (fun p => emphasisLine p.1 p.2) (pyEnum 1 lines)

/-! ## Table checker (`validate_tables`) -/

/-- Column count of a stripped table row:
`len([c for c in stripped.split('|') if c.strip() or c == ''])`. -/
def colCount (stripped : List Char) : Nat :=
  ((splitChar '|' stripped).filter (fun c => stripList c ≠ [] ∨ c = [])).length

/-- `re.match(r'^[\s|:-]+$', stripped)`: a pure separator row. -/
def isSepRow (stripped : List Char) : Bool :=
  !stripped.isEmpty &&
    stripped.all (fun c => isPySpace c || c == '|' || c == ':' || c == '-')

/-- The table state of `validate_tables`: `in_table`, `table_start`,
`header_cols`. -/
structure TableSt where
  inTable : Bool
  tableStart : Nat
  headerCols : Nat
deriving DecidableEq, Repr

/-- The per-line transition of `validate_tables`, with the issues it appends. -/
def tableStep (st : TableSt) (i : Nat) (line : List Char) : TableSt × List ValidationIssue :=
  if line.contains '|' then
    if (stripList line).head? = some '|' ∨ (stripList line).getLast? = some '|' then
      if st.inTable = false then (⟨true, i, colCount (stripList line)⟩, [])
      else if colCount (stripList line) ≠ st.headerCols ∧ ¬ isSepRow (stripList line) then
        (st, [⟨i, "table_column_mismatch", "error",
          "Table has inconsistent columns (expected " ++ toString st.headerCols ++
            ", found " ++ toString (colCount (stripList line)) ++ ")",
          String.mk line, "Adjust to " ++ toString st.headerCols ++ " columns"⟩])
      else (st, [])
    else (st, [])
  else
    if st.inTable ∧ stripList line ≠ [] then
      (⟨false, st.tableStart, st.headerCols⟩, [])
    else (st, [])

/-- The scan loop of `validate_tables`. -/
def tablesGo : TableSt → Nat → List (List Char) → List ValidationIssue
  | _, _, [] => []
  | st, i, l :: rest =>
    (tableStep st i l).2 ++ tablesGo (tableStep st i l).1 (i + 1) rest

/-- `MarkdownValidator.validate_tables`. -/
def validate_tables (lines : List (List Char)) : List ValidationIssue :=
  tablesGo ⟨false, 0, 0⟩ 1 lines

/-! ## Orchestrator (`validate_all`, `validate_markdown_file`) -/

/-- The concatenation of every checker's issues, in the fixed execution
order of `validate_all`, before the final sort. -/
def rawIssues (env : Env) (base : String) (lines : List (List Char)) :
    List ValidationIssue :=
  validate_headers lines ++ validate_links env base lines ++
    validate_code_blocks lines ++ validate_lists lines ++
    validate_images env base lines ++ validate_emphasis lines ++
    validate_tables lines

/-- The sort key: `self.issues.sort(key=lambda x: x.line_number)`. -/
def issueLE (a b : ValidationIssue) : Bool :=
  a.line_number ≤ b.line_number

/-- `validate_all` after a successful load, over the line list. -/
def validate_all_lines (env : Env) (base : String) (lines : List (List Char)) :
    List ValidationIssue :=
  List.mergeSort (rawIssues env base lines) issueLE

/-- `MarkdownValidator.validate_all`: on load failure the single synthetic
issue, otherwise every checker followed by the stable sort. -/
def validate_all (env : Env) (base path : String) (load : Except LoadErr String) :
    List ValidationIssue :=
  match load with
  | .error e => [fileErrorIssue path e]
  | .ok content => validate_all_lines env base (linesOf content)

/-- The result dictionary of `validate_markdown_file`. -/
structure MDResult where
  file_path : String
  total_issues : Nat
  errors : Nat
  warnings : Nat
  info : Nat
  issues : List ValidationIssue
  summary : String
deriving DecidableEq, Repr

/-- `validate_markdown_file`. -/
def validate_markdown_file (env : Env) (base path : String)
    (load : Except LoadErr String) : MDResult :=
  let issues := validate_all env base path load
  let errors := (issues.filter (fun i => i.severity == "error")).length
  let warnings := (issues.filter (fun i => i.severity == "warning")).length
  let info := (issues.filter (fun i => i.severity == "info")).length
  ⟨path, issues.length, errors, warnings, info, issues,
    "Found " ++ toString errors ++ " errors, " ++ toString warnings ++
      " warnings, and " ++ toString info ++ " info messages"⟩

/-! ## Helper lemmas -/

/-- A fence line's character is a backtick or a tilde, and its count is at
least three. -/
theorem parseFence_shape {line : List Char} {c : Char} {n : Nat}
    (h : parseFence line = some (c, n)) : (c = '`' ∨ c = '~') ∧ 3 ≤ n := by
  rw [parseFence.eq_def] at h
  split at h
  next => simp at h
  next c0 cs heq =>
    split at h
    next hc =>
      split at h
      next hrun =>
        cases h
        exact ⟨hc, by omega⟩
      next => simp at h
    next => simp at h

/-! ## Claims -/

/-- C1: the fence state of the Code Block Checker transitions exactly as
specified.  For any line that is a fence line (its stripped text parses as a
run of three or more identical backticks or tildes plus an optional language
tag): while closed, the step opens a block recording the fence character,
the count and the line number; while open, the step closes the block if and
only if the fence uses the same character with a count greater than or equal
to the opening count; any other fence line while open leaves the state
unchanged. -/
theorem fence_state_transitions (st : FenceSt) (i : Nat) (line : List Char)
    (c : Char) (n : Nat) (h : parseFence line = some (c, n)) :
    (st.inBlock = false → fenceStep st i line = ⟨true, i, some c, n⟩) ∧
    (st.inBlock = true →
      ((fenceStep st i line).inBlock = false ↔ st.fenceChar = some c ∧ st.fenceCount ≤ n)) ∧
    (st.inBlock = true → ¬(st.fenceChar = some c ∧ st.fenceCount ≤ n) →
      fenceStep st i line = st) := by
  refine ⟨?_, ?_, ?_⟩
  · intro hcl
    simp [fenceStep, h, hcl]
  · intro hop
    constructor
    · intro hclosed
      by_contra hno
      have : fenceStep st i line = st := by
        simp [fenceStep, h, hop, hno]
      rw [this, hop] at hclosed
      cases hclosed
    · intro hyes
      simp [fenceStep, h, hop, hyes]
  · intro hop hno
    simp [fenceStep, h, hop, hno]

/-- Witness for C1: a block opened by four backticks is not closed by three
backticks, is closed by four, and a tilde fence does not close it. -/
theorem fence_state_transitions_witness :
    (parseFence ("````").data = some ('`', 4) ∧
      fenceStep initFence 1 ("````").data = ⟨true, 1, some '`', 4⟩) ∧
    (parseFence ("```").data = some ('`', 3) ∧
      fenceStep ⟨true, 1, some '`', 4⟩ 2 ("```").data = ⟨true, 1, some '`', 4⟩) ∧
    (parseFence ("~~~~~").data = some ('~', 5) ∧
      fenceStep ⟨true, 1, some '`', 4⟩ 2 ("~~~~~").data = ⟨true, 1, some '`', 4⟩) ∧
    (parseFence ("`````").data = some ('`', 5) ∧
      (fenceStep ⟨true, 1, some '`', 4⟩ 2 ("`````").data).inBlock = false) := by
  refine ⟨⟨by decide, (fence_state_transitions initFence 1 _ '`' 4 (by decide)).1 rfl⟩,
    ⟨by decide, (fence_state_transitions ⟨true, 1, some '`', 4⟩ 2 _ '`' 3 (by decide)).2.2 rfl
      (by decide)⟩,
    ⟨by decide, (fence_state_transitions ⟨true, 1, some '`', 4⟩ 2 _ '~' 5 (by decide)).2.2 rfl
      (by decide)⟩,
    ⟨by decide, ?_⟩⟩
  exact ((fence_state_transitions ⟨true, 1, some '`', 4⟩ 2 _ '`' 5 (by decide)).2.1 rfl).mpr
    (by decide)

/-- C8: when the document cannot be loaded, `validate_all` returns exactly
the single synthetic `file_error` issue with line number 0 and severity
`error`, and no checker output appears. -/
theorem load_failure_single_issue (env : Env) (base path : String) (e : LoadErr) :
    validate_all env base path (Except.error e) = [fileErrorIssue path e] ∧
    (fileErrorIssue path e).line_number = 0 ∧
    (fileErrorIssue path e).issue_type = "file_error" ∧
    (fileErrorIssue path e).severity = "error" := by
  refine ⟨rfl, ?_, ?_, ?_⟩ <;> cases e <;> rfl

/-- C9: validating the empty document yields no issues and all counts zero,
although the loader represents empty content as a single empty line. -/
theorem empty_document_no_issues (env : Env) (base path : String) :
    linesOf "" = [[]] ∧
    (validate_markdown_file env base path (Except.ok "")).issues = [] ∧
    (validate_markdown_file env base path (Except.ok "")).total_issues = 0 ∧
    (validate_markdown_file env base path (Except.ok "")).errors = 0 ∧
    (validate_markdown_file env base path (Except.ok "")).warnings = 0 ∧
    (validate_markdown_file env base path (Except.ok "")).info = 0 := by
  have h : validate_all env base path (Except.ok "") = [] := by
    show List.mergeSort (rawIssues env base (linesOf "")) issueLE = []
    have hraw : rawIssues env base (linesOf "") = [] := rfl
    rw [hraw, List.mergeSort_nil]
  refine ⟨rfl, ?_, ?_, ?_, ?_, ?_⟩ <;> simp [validate_markdown_file, h]

/-- If position `n` lies inside the `takeWhile` run, the drop at `n` starts
with a character satisfying the predicate. -/
theorem drop_head_of_takeWhile (p : Char → Bool) :
    ∀ (n : Nat) (l : List Char), n < (l.takeWhile p).length →
    ∃ c r, l.drop n = c :: r ∧ p c = true := by
  intro n
  induction n with
  | zero =>
    intro l h
    match l with
    | [] => simp at h
    | a :: as =>
      by_cases hp : p a
      · exact ⟨a, as, rfl, hp⟩
      · rw [List.takeWhile_cons_of_neg hp] at h
        simp at h
  | succ n ih =>
    intro l h
    match l with
    | [] => simp at h
    | a :: as =>
      by_cases hp : p a
      · rw [List.takeWhile_cons_of_pos hp] at h
        simp at h
        exact ih as (by omega)
      · rw [List.takeWhile_cons_of_neg hp] at h
        simp at h

/-- Right-stripping cannot erase a leading character the predicate rejects. -/
theorem rstripBy_cons_ne_nil {p : Char → Bool} {a : Char} (l : List Char)
    (ha : p a = false) : rstripBy p (a :: l) ≠ [] := by
  intro h
  rw [rstripBy] at h
  have h2 : (a :: l).reverse.dropWhile p = [] := by
    have := congrArg List.reverse h
    simpa using this
  have := List.dropWhile_eq_nil_iff.mp h2 a (by simp)
  rw [ha] at this
  cases this

/-- C6 counterexample: the line `#######Title` (seven hashes) is matched as
a heading by the header pattern, and the Header Checker reports a
`header_format` issue for it — contradicting the claim that lines with seven
or more leading hashes produce no header issue. -/
theorem seven_hash_counterexample :
    validate_headers [("#######Title").data] =
      [⟨1, "header_format", "warning", "Missing space after header hashes",
        "#######Title", "###### #Title"⟩] := by
  decide

/-- C6 (amended): a line beginning with seven or more `#` characters is
still matched by the header pattern `^(#{1,6})\s*(.*)$`: the marker group
captures only the first six hashes, so the line is treated as a level-6
heading whose text starts with the excess hashes, and the Header Checker
reports a `header_format` warning at that line (the character after the
captured hashes is `#`, not a space). -/
theorem seven_hash_heading (prev i : Nat) (line : List Char)
    (h : 7 ≤ (line.takeWhile (fun c => c == '#')).length) :
    (∃ t, headerMatch line = some (6, t) ∧ t ≠ []) ∧
    ∃ iss ∈ (headerLine prev i line).2,
      iss.issue_type = "header_format" ∧ iss.line_number = i ∧ iss.severity = "warning" := by
  obtain ⟨c, r, hdrop, hc⟩ :=
    drop_head_of_takeWhile (fun c => c == '#') 6 line (by omega)
  have hc' : c = '#' := by
    have := of_decide_eq_true hc
    exact this
  subst hc'
  have hrun : (line.takeWhile (fun c => c == '#')).length ≠ 0 := by omega
  have hmin : min (line.takeWhile (fun c => c == '#')).length 6 = 6 :=
    Nat.min_eq_right (by omega)
  have hsp : isPySpace '#' = false := by decide
  have hgrp : (line.drop 6).dropWhile isPySpace = '#' :: r := by
    rw [hdrop, List.dropWhile_cons_of_neg (by simp [hsp])]
  have htext : stripList ((line.drop 6).dropWhile isPySpace) ≠ [] := by
    rw [hgrp]
    unfold stripList
    rw [List.dropWhile_cons_of_neg (by simp [hsp])]
    exact rstripBy_cons_ne_nil r hsp
  have hmatch : headerMatch line =
      some (6, stripList ((line.drop 6).dropWhile isPySpace)) := by
    unfold headerMatch
    simp only [hrun, if_false, hmin]
  refine ⟨⟨_, hmatch, htext⟩, ?_⟩
  refine ⟨⟨i, "header_format", "warning", "Missing space after header hashes",
    String.mk line, String.mk (List.replicate 6 '#') ++ " " ++
      String.mk (stripList ((line.drop 6).dropWhile isPySpace))⟩, ?_, rfl, rfl, rfl⟩
  unfold headerLine
  rw [hmatch]
  simp only
  have hcond : (line.drop 6).head? ≠ some ' ' ∧
      stripList ((line.drop 6).dropWhile isPySpace) ≠ [] := by
    constructor
    · rw [hdrop]
      simp
    · exact htext
  rw [if_pos hcond]
  simp

/-- Witness for the amended C6 theorem at the concrete line `#######Title`. -/
theorem seven_hash_heading_witness :
    (7 ≤ ((("#######Title").data).takeWhile (fun c => c == '#')).length) ∧
    ((∃ t, headerMatch ("#######Title").data = some (6, t) ∧ t ≠ []) ∧
    ∃ iss ∈ (headerLine 0 1 ("#######Title").data).2,
      iss.issue_type = "header_format" ∧ iss.line_number = 1 ∧ iss.severity = "warning") :=
  ⟨by decide, seven_hash_heading 0 1 ("#######Title").data (by decide)⟩

/-- C7: inside a table whose header row established 3 columns, a table row
counting 2 columns that is not a pure separator row produces exactly one
`table_column_mismatch` error at its line; and a separator row (whitespace,
pipes, dashes, colons only) never produces a mismatch issue, whatever its
column count and the current table state. -/
theorem table_mismatch_exact :
    (∀ (st : TableSt) (i : Nat) (line : List Char),
      st.inTable = true → st.headerCols = 3 →
      line.contains '|' = true →
      ((stripList line).head? = some '|' ∨ (stripList line).getLast? = some '|') →
      colCount (stripList line) = 2 →
      isSepRow (stripList line) = false →
      (tableStep st i line).2 =
        [⟨i, "table_column_mismatch", "error",
          "Table has inconsistent columns (expected 3, found 2)",
          String.mk line, "Adjust to 3 columns"⟩]) ∧
    (∀ (st : TableSt) (i : Nat) (line : List Char),
      isSepRow (stripList line) = true → (tableStep st i line).2 = []) := by
  constructor
  · intro st i line hin hcols hpipe hse hcc hsep
    unfold tableStep
    rw [if_pos hpipe, if_pos hse, if_neg (by rw [hin]; exact Bool.true_eq_false ▸ (by simp)),
      if_pos (by rw [hcc, hcols, hsep]; exact ⟨by omega, by simp⟩)]
    rw [hcc, hcols]
    rfl
  · intro st i line hsep
    unfold tableStep
    split
    · split
      · split
        · rfl
        · rw [if_neg]
          intro hcon
          rw [hsep] at hcon
          exact hcon.2 rfl
      · rfl
    · split <;> rfl

/-- Witness for C7: the mismatch case at the concrete row `| a` (2 columns)
inside a 3-column table, and the exemption case at the separator `|---|`. -/
theorem table_mismatch_exact_witness :
    ((⟨true, 1, 3⟩ : TableSt).inTable = true ∧
      (tableStep ⟨true, 1, 3⟩ 2 ("| a").data).2 =
        [⟨2, "table_column_mismatch", "error",
          "Table has inconsistent columns (expected 3, found 2)",
          String.mk ("| a").data, "Adjust to 3 columns"⟩]) ∧
    (isSepRow (stripList ("|---|").data) = true ∧
      (tableStep ⟨true, 1, 3⟩ 3 ("|---|").data).2 = []) :=
  ⟨⟨rfl, table_mismatch_exact.1 ⟨true, 1, 3⟩ 2 ("| a").data rfl rfl (by decide)
      (by decide) (by decide) (by decide)⟩,
    ⟨by decide, table_mismatch_exact.2 ⟨true, 1, 3⟩ 3 ("|---|").data (by decide)⟩⟩

/-! ## Reference table characterisation (for C4 and C5) -/

/-- All reference definitions of the document, in order: lowercased
identifier, line number, target. -/
def defsList : Nat → List (List Char) → List (String × Nat × String)
  | _, [] => []
  | i, l :: rest =>
    (match refDefOf l with
     | some (rid, u) => [(lowerStr rid, i, String.mk u)]
     | none => []) ++ defsList (i + 1) rest

/-- The dictionary built by pass 1 maps an identifier to the *last*
definition with that (lowercased) identifier, if any. -/
theorem refTableGo_eq : ∀ (ls : List (List Char)) (t : String → Option (Nat × String))
    (i : Nat) (rid : String),
    refTableGo t i ls rid =
      (match ((defsList i ls).filter (fun d => d.1 == rid)).getLast? with
       | some d => some d.2
       | none => t rid) := by
  intro ls
  induction ls with
  | nil => intro t i rid; rfl
  | cons l rest ih =>
    intro t i rid
    rw [refTableGo, ih]
    cases hdef : refDefOf l with
    | none =>
      simp only [defsList, hdef, List.nil_append]
    | some p =>
      obtain ⟨rid2, u⟩ := p
      simp only [defsList, hdef, List.filter_append, List.getLast?_append]
      cases hlast : ((defsList (i + 1) rest).filter (fun d => d.1 == rid)).getLast? with
      | some d => simp [Option.or]
      | none =>
        simp only [Option.or_none]
        by_cases heq : lowerStr rid2 = rid
        · rw [List.filter_cons_of_pos (by simpa using heq)]
          simp [heq, Function.update]
        · rw [List.filter_cons_of_neg (by simpa using heq)]
          simp [Function.update]
          intro h
          exact absurd h.symm heq

/-- C5: when the same (case-insensitively compared) identifier is defined on
more than one line, the reference table after pass 1 maps it to the
definition from the last such line (last write wins), not the first, and
pass-2 resolution of a usage with that identifier is decided by that final
definition being present. -/
theorem duplicate_ref_last_write (lines : List (List Char)) (rid : String)
    (ds : List (String × Nat × String)) (j : Nat) (v : String)
    (hds : (defsList 1 lines).filter (fun d => d.1 == rid) = ds ++ [(rid, j, v)])
    (hmulti : ds ≠ []) :
    refTable lines rid = some (j, v) ∧
    ∀ (i : Nat) (text r : List Char), resolveRefId text r = rid →
      refLinkIssues (refTable lines) i text r = [] := by
  have htab : refTable lines rid = some (j, v) := by
    rw [refTable, refTableGo_eq, hds]
    simp
  refine ⟨htab, ?_⟩
  intro i text r hres
  rw [refLinkIssues, hres, htab]
  simp

/-- Witness for C5: `ref` defined on line 1 with target `a` and (as `REF`)
on line 2 with target `b`; the table resolves to line 2's definition. -/
theorem duplicate_ref_last_write_witness :
    ((defsList 1 [("[ref]: a").data, ("[REF]: b").data]).filter
        (fun d => d.1 == "ref") = [("ref", 1, "a")] ++ [("ref", 2, "b")]) ∧
    ([("ref", 1, "a")] : List (String × Nat × String)) ≠ [] ∧
    refTable [("[ref]: a").data, ("[REF]: b").data] "ref" = some (2, "b") :=
  ⟨by decide, by decide,
    (duplicate_ref_last_write [("[ref]: a").data, ("[REF]: b").data] "ref"
      [("ref", 1, "a")] 2 "b" (by decide) (by decide)).1⟩

/-! ## Code-block scan invariant (for C2) -/

/-- Every issue appended during the scan loop of `validate_code_blocks` is
an `unmatched_backticks` warning; the `unclosed_code_block` issue is only
appended after the loop. -/
theorem cbScan_types : ∀ (rest : List (List Char)) (i : Nat) (st : FenceSt),
    ∀ iss ∈ (cbScan i st rest).2, iss.issue_type = "unmatched_backticks" := by
  intro rest
  induction rest with
  | nil => intro i st iss h; simp [cbScan] at h
  | cons l r ih =>
    intro i st iss h
    rw [cbScan] at h
    rw [List.mem_append] at h
    rcases h with h | h
    · rw [btIssue] at h
      split at h
      · simp at h
      · split at h
        · rw [List.mem_singleton] at h
          rw [h]
        · simp at h
    · exact ih (i + 1) (fenceStep st i l) iss h

theorem getD_of_drop_cons : ∀ (k : Nat) (lines : List (List Char))
    (l : List Char) (r : List (List Char)),
    lines.drop k = l :: r → lines.getD k [] = l := by
  intro k
  induction k with
  | zero =>
    intro lines l r h
    rw [List.drop_zero] at h
    rw [h]
    rfl
  | succ k ih =>
    intro lines l r h
    match lines with
    | [] => simp at h
    | x :: xs =>
      rw [List.drop_succ_cons] at h
      exact ih xs l r h

/-- The invariant maintained by the fence scan: while a block is open, the
recorded start line is a real earlier line whose stripped text parses as a
fence with exactly the recorded character and count. -/
def FenceInv (lines : List (List Char)) (bound : Nat) (st : FenceSt) : Prop :=
  st.inBlock = true →
    ∃ c, st.fenceChar = some c ∧ 1 ≤ st.startLine ∧ st.startLine ≤ bound ∧
      parseFence (lines.getD (st.startLine - 1) []) = some (c, st.fenceCount)

theorem FenceInv.mono {lines : List (List Char)} {b b' : Nat} {st : FenceSt}
    (h : FenceInv lines b st) (hb : b ≤ b') : FenceInv lines b' st := by
  intro hop
  obtain ⟨c, h1, h2, h3, h4⟩ := h hop
  exact ⟨c, h1, h2, Nat.le_trans h3 hb, h4⟩

theorem cbScan_inv : ∀ (rest : List (List Char)) (lines : List (List Char))
    (i : Nat) (st : FenceSt),
    rest = lines.drop (i - 1) → 1 ≤ i → FenceInv lines (i - 1) st →
    FenceInv lines (i - 1 + rest.length) (cbScan i st rest).1 := by
  intro rest
  induction rest with
  | nil =>
    intro lines i st _ _ hinv
    exact hinv
  | cons l r ih =>
    intro lines i st hrest hi hinv
    rw [cbScan]
    have hgetD : lines.getD (i - 1) [] = l := getD_of_drop_cons (i - 1) lines l r hrest.symm
    have hr : r = lines.drop i := by
      have := List.tail_drop lines (i - 1)
      rw [← hrest] at this
      simp at this
      rw [this]
      congr 1
      omega
    have hstep : FenceInv lines i (fenceStep st i l) := by
      cases hp : parseFence l with
      | none =>
        simp only [fenceStep, hp]
        exact hinv.mono (by omega)
      | some p =>
        obtain ⟨c, n⟩ := p
        simp only [fenceStep, hp]
        by_cases hb : st.inBlock = false
        · rw [if_pos hb]
          intro _
          refine ⟨c, rfl, hi, Nat.le_refl i, ?_⟩
          simp only
          rw [hgetD]
          exact hp
        · rw [if_neg hb]
          by_cases hcl : st.fenceChar = some c ∧ st.fenceCount ≤ n
          · rw [if_pos hcl]
            intro hcontra
            cases hcontra
          · rw [if_neg hcl]
            exact hinv.mono (by omega)
    have := ih lines (i + 1) (fenceStep st i l) (by simpa using hr) (by omega) (by simpa using hstep)
    have harith : i + 1 - 1 + r.length = i - 1 + (l :: r).length := by
      simp [List.length_cons]
      omega
    rw [harith] at this
    exact this

/-- C2: if the fence state is still open after the last line has been
scanned, `validate_code_blocks` appends exactly one `unclosed_code_block`
issue of severity `error`, reported at the opening fence's line, quoting the
opening fence line as `original_text`, and suggesting a closing fence of the
same character and the same count as the opening fence. -/
theorem unclosed_fence_report (lines : List (List Char))
    (h : (cbScan 1 initFence lines).1.inBlock = true) :
    ∃ c, (cbScan 1 initFence lines).1.fenceChar = some c ∧ (c = '`' ∨ c = '~') ∧
      parseFence (lines.getD ((cbScan 1 initFence lines).1.startLine - 1) []) =
        some (c, (cbScan 1 initFence lines).1.fenceCount) ∧
      (validate_code_blocks lines).filter
          (fun iss => iss.issue_type == "unclosed_code_block") =
        [⟨(cbScan 1 initFence lines).1.startLine, "unclosed_code_block", "error",
          "Unclosed fenced code block",
          String.mk (lines.getD ((cbScan 1 initFence lines).1.startLine - 1) []),
          "Add closing fence: " ++
            String.mk (List.replicate (cbScan 1 initFence lines).1.fenceCount c)⟩] := by
  have hinv := cbScan_inv lines lines 1 initFence (by simp) (Nat.le_refl 1)
    (fun hc => absurd hc (by simp [initFence]))
  obtain ⟨c, hchar, _, _, hparse⟩ := hinv h
  refine ⟨c, hchar, (parseFence_shape hparse).1, hparse, ?_⟩
  simp only [validate_code_blocks]
  rw [if_pos h, List.filter_append]
  have h1 : (cbScan 1 initFence lines).2.filter
      (fun iss => iss.issue_type == "unclosed_code_block") = [] := by
    rw [List.filter_eq_nil_iff]
    intro a ha
    have := cbScan_types lines 1 initFence a ha
    rw [this]
    decide
  have h2 : [unclosedIssue lines (cbScan 1 initFence lines).1].filter
      (fun iss => iss.issue_type == "unclosed_code_block") =
      [unclosedIssue lines (cbScan 1 initFence lines).1] := by
    simp [unclosedIssue]
  rw [h1, h2, List.nil_append, unclosedIssue, hchar]
  rcases (parseFence_shape hparse).1 with hc | hc <;> subst hc <;> simp

/-- Witness for C2: a document whose single line opens a four-backtick
fence that is never closed. -/
theorem unclosed_fence_report_witness :
    (cbScan 1 initFence [("````py").data]).1.inBlock = true ∧
    (∃ c, (cbScan 1 initFence [("````py").data]).1.fenceChar = some c ∧
      (c = '`' ∨ c = '~') ∧
      parseFence ([("````py").data].getD
          ((cbScan 1 initFence [("````py").data]).1.startLine - 1) []) =
        some (c, (cbScan 1 initFence [("````py").data]).1.fenceCount) ∧
      (validate_code_blocks [("````py").data]).filter
          (fun iss => iss.issue_type == "unclosed_code_block") =
        [⟨(cbScan 1 initFence [("````py").data]).1.startLine, "unclosed_code_block",
          "error", "Unclosed fenced code block",
          String.mk ([("````py").data].getD
            ((cbScan 1 initFence [("````py").data]).1.startLine - 1) []),
          "Add closing fence: " ++
            String.mk (List.replicate
              (cbScan 1 initFence [("````py").data]).1.fenceCount c)⟩]) :=
  ⟨by decide, unclosed_fence_report [("````py").data] (by decide)⟩

theorem issueLE_trans (a b c : ValidationIssue) :
    issueLE a b → issueLE b c → issueLE a c := by
  simp only [issueLE, decide_eq_true_eq]
  omega

theorem issueLE_total (a b : ValidationIssue) : issueLE a b || issueLE b a := by
  simp only [issueLE]
  by_cases h : a.line_number ≤ b.line_number
  · simp [h]
  · simp [h]
    omega

/-- C3: the issue list returned by `validate_all` is sorted by line number
in nondecreasing order, and the sort is stable: for every line number `k`,
the issues with that line number appear exactly in the order in which the
checkers appended them to the raw (pre-sort) issue sequence. -/
theorem validate_all_sorted_stable (env : Env) (base path content : String) :
    (∀ (i : Nat) (h2 : i + 1 < (validate_all env base path (Except.ok content)).length),
      ((validate_all env base path (Except.ok content)).get ⟨i, by omega⟩).line_number ≤
        ((validate_all env base path (Except.ok content)).get ⟨i + 1, h2⟩).line_number) ∧
    (∀ k : Nat,
      (validate_all env base path (Except.ok content)).filter
          (fun iss => iss.line_number == k) =
        (rawIssues env base (linesOf content)).filter
          (fun iss => iss.line_number == k)) := by
  have hres : validate_all env base path (Except.ok content) =
      List.mergeSort (rawIssues env base (linesOf content)) issueLE := rfl
  constructor
  · intro i h2
    have hsorted := List.sorted_mergeSort issueLE_trans issueLE_total
      (rawIssues env base (linesOf content))
    rw [← hres] at hsorted
    have := List.pairwise_iff_get.mp hsorted ⟨i, by omega⟩ ⟨i + 1, h2⟩ (by simp)
    simpa [issueLE] using this
  · intro k
    rw [hres]
    set l := rawIssues env base (linesOf content) with hl
    set p : ValidationIssue → Bool := fun iss => iss.line_number == k with hp
    have hkey : ∀ a ∈ l.filter p, a.line_number = k := by
      intro a ha
      have h2 := (List.mem_filter.mp ha).2
      simp only [hp] at h2
      simpa using h2
    have hpw : (l.filter p).Pairwise (fun a b => issueLE a b) := by
      apply List.pairwise_of_forall_mem_list
      intro a ha b hb
      have h1 := hkey a ha
      have h2 := hkey b hb
      simp [issueLE, h1, h2]
    have hstab : List.Sublist (l.filter p) (List.mergeSort l issueLE) :=
      List.sublist_mergeSort issueLE_trans issueLE_total hpw (List.filter_sublist l)
    have hsub2 : List.Sublist (l.filter p) ((List.mergeSort l issueLE).filter p) := by
      have hself : (l.filter p).filter p = l.filter p :=
        List.filter_eq_self.mpr (fun a ha => (List.mem_filter.mp ha).2)
      have := List.Sublist.filter p hstab
      rw [hself] at this
      exact this
    have hlen : ((List.mergeSort l issueLE).filter p).length = (l.filter p).length :=
      ((List.mergeSort_perm l issueLE).filter p).length_eq
    exact (hsub2.eq_of_length hlen.symm).symm

/-- A fully stubbed environment: no file exists, the network always fails
silently. -/
def stubEnv : Env := ⟨fun _ => false, fun _ => ProbeRes.netErr⟩

theorem sorted_stable_doc_len :
    0 + 1 < (validate_all stubEnv "/b" "f.md" (Except.ok "## \n**bold")).length := by
  show 0 + 1 <
    (List.mergeSort (rawIssues stubEnv "/b" (linesOf "## \n**bold")) issueLE).length
  rw [List.length_mergeSort]
  decide

/-- Witness for C3 on a concrete two-issue document. -/
theorem validate_all_sorted_stable_witness :
    ((validate_all stubEnv "/b" "f.md" (Except.ok "## \n**bold")).get
        ⟨0, Nat.lt_of_succ_lt sorted_stable_doc_len⟩).line_number ≤
      ((validate_all stubEnv "/b" "f.md" (Except.ok "## \n**bold")).get
        ⟨0 + 1, sorted_stable_doc_len⟩).line_number ∧
    (validate_all stubEnv "/b" "f.md" (Except.ok "## \n**bold")).filter
        (fun iss => iss.line_number == 1) =
      (rawIssues stubEnv "/b" (linesOf "## \n**bold")).filter
        (fun iss => iss.line_number == 1) :=
  ⟨(validate_all_sorted_stable stubEnv "/b" "f.md" "## \n**bold").1 0
      sorted_stable_doc_len,
    (validate_all_sorted_stable stubEnv "/b" "f.md" "## \n**bold").2 1⟩


/-! ## Reference-link characterisation (for C4) -/

/-- The claim's notion of reference resolution: some line of the document is
a definition whose lowercased identifier equals `rid` (itself lowercased),
so matching is case-insensitive. -/
def definedAnywhere (lines : List (List Char)) (rid : String) : Bool :=
  lines.any (fun l =>
    match refDefOf l with
    | some (r, _) => lowerStr r == rid
    | none => false)

theorem defsList_forward : ∀ (lines : List (List Char)) (i : Nat)
    (d : String × Nat × String), d ∈ defsList i lines →
    ∃ l ∈ lines, ∃ r u, refDefOf l = some (r, u) ∧ d.1 = lowerStr r := by
  intro lines
  induction lines with
  | nil => intro i d h; simp [defsList] at h
  | cons l rest ih =>
    intro i d h
    rw [defsList, List.mem_append] at h
    rcases h with h | h
    · cases hdef : refDefOf l with
      | none => rw [hdef] at h; simp at h
      | some p =>
        obtain ⟨r, u⟩ := p
        rw [hdef] at h
        simp at h
        exact ⟨l, by simp, r, u, hdef, by rw [h]⟩
    · obtain ⟨l2, hl2, r, u, hdef, hd1⟩ := ih (i + 1) d h
      exact ⟨l2, by simp [hl2], r, u, hdef, hd1⟩

theorem defsList_backward : ∀ (lines : List (List Char)) (i : Nat)
    (l : List Char) (r u : List Char), l ∈ lines → refDefOf l = some (r, u) →
    ∃ d, d ∈ defsList i lines ∧ d.1 = lowerStr r := by
  intro lines
  induction lines with
  | nil => intro i l r u h _; simp at h
  | cons l0 rest ih =>
    intro i l r u hmem hdef
    rw [List.mem_cons] at hmem
    rcases hmem with heq | hmem
    · subst heq
      refine ⟨(lowerStr r, i, String.mk u), ?_, rfl⟩
      rw [defsList, List.mem_append]
      left
      rw [hdef]
      simp
    · obtain ⟨d, hd, h1⟩ := ih (i + 1) l r u hmem hdef
      exact ⟨d, by rw [defsList, List.mem_append]; right; exact hd, h1⟩

theorem defsList_filter_nil_iff (lines : List (List Char)) (i : Nat) (rid : String) :
    (((defsList i lines).filter (fun d => d.1 == rid)) = []) ↔
      definedAnywhere lines rid = false := by
  rw [List.filter_eq_nil_iff, definedAnywhere, List.any_eq_false]
  constructor
  · intro h l hl
    cases hdef : refDefOf l with
    | none => simp
    | some p =>
      obtain ⟨r, u⟩ := p
      show ¬(lowerStr r == rid) = true
      intro hbeq
      have hbeq2 : lowerStr r = rid := eq_of_beq hbeq
      obtain ⟨d, hd, h1⟩ := defsList_backward lines i l r u hl hdef
      exact h d hd (by rw [h1, hbeq2]; simp)
  · intro h d hd
    obtain ⟨l, hl, r, u, hdef, h1⟩ := defsList_forward lines i d hd
    have := h l hl
    rw [hdef] at this
    simp only [Bool.not_eq_true] at this
    rw [h1]
    simp only [this]
    simp

/-- The dictionary lookup of pass 2 fails exactly when no line anywhere in
the document defines the identifier (case-insensitively). -/
theorem refTable_none_iff (lines : List (List Char)) (rid : String) :
    refTable lines rid = none ↔ definedAnywhere lines rid = false := by
  rw [refTable, refTableGo_eq, ← defsList_filter_nil_iff lines 1 rid]
  cases hl : ((defsList 1 lines).filter (fun d => d.1 == rid)).getLast? with
  | some d =>
    constructor
    · intro h
      simp at h
    · intro h
      rw [h] at hl
      simp at hl
  | none =>
    constructor
    · intro _
      exact List.getLast?_eq_none_iff.mp hl
    · intro _
      rfl

theorem mem_concatMap {f : α → List β} {b : β} :
    ∀ {l : List α}, b ∈ concatMap f l ↔ ∃ a ∈ l, b ∈ f a := by
  intro l
  induction l with
  | nil => simp [concatMap]
  | cons x xs ih =>
    rw [concatMap, List.mem_append, ih]
    simp

theorem filter_concatMap (q : β → Bool) (f : α → List β) :
    ∀ l : List α, (concatMap f l).filter q = concatMap (fun x => (f x).filter q) l := by
  intro l
  induction l with
  | nil => rfl
  | cons x xs ih =>
    rw [concatMap, List.filter_append, ih]
    rfl

theorem concatMap_congr {f g : α → List β} :
    ∀ {l : List α}, (∀ x ∈ l, f x = g x) → concatMap f l = concatMap g l := by
  intro l
  induction l with
  | nil => intro _; rfl
  | cons x xs ih =>
    intro h
    rw [concatMap, concatMap, h x (by simp), ih (fun y hy => h y (by simp [hy]))]

/-- No issue produced by `_validate_url` is an `undefined_reference`. -/
theorem validateUrl_not_undef (env : Env) (base : String) (i : Nat)
    (url : List Char) (orig : String) :
    ∀ iss ∈ validateUrl env base i url orig,
      iss.issue_type ≠ "undefined_reference" := by
  intro iss h
  simp only [validateUrl] at h
  split at h
  · simp at h
  · split at h
    · split at h
      · simp at h
      · rw [List.mem_singleton] at h
        subst h
        exact (by decide : ("broken_local_link" : String) ≠ "undefined_reference")
    · split at h
      · rw [List.mem_singleton] at h
        subst h
        exact (by decide : ("invalid_url_format" : String) ≠ "undefined_reference")
      · split at h
        · split at h
          · rw [List.mem_singleton] at h
            subst h
            exact (by decide : ("broken_external_link" : String) ≠ "undefined_reference")
          · simp at h
        · rw [List.mem_singleton] at h
          subst h
          exact (by decide : ("link_timeout" : String) ≠ "undefined_reference")
        · simp at h

/-- No issue produced for an inline-link match is an `undefined_reference`. -/
theorem inlineLinkIssues_not_undef (env : Env) (base : String) (i : Nat)
    (t u : List Char) :
    ∀ iss ∈ inlineLinkIssues env base i t u,
      iss.issue_type ≠ "undefined_reference" := by
  intro iss h
  simp only [inlineLinkIssues] at h
  rw [List.mem_append] at h
  rcases h with h | h
  · split at h
    · rw [List.mem_singleton] at h
      subst h
      exact (by decide : ("empty_link_text" : String) ≠ "undefined_reference")
    · simp at h
  · split at h
    · rw [List.mem_singleton] at h
      subst h
      exact (by decide : ("empty_url" : String) ≠ "undefined_reference")
    · exact validateUrl_not_undef env base i _ _ iss h

/-- The issues appended for the reference-link matches of one line are
exactly one `undefined_reference` issue per unresolved match. -/
theorem concatMap_refLink (lines : List (List Char)) (i : Nat) :
    ∀ ms : List (List Char × List Char),
      concatMap (fun m => refLinkIssues (refTable lines) i m.1 m.2) ms =
        (ms.filter (fun m => !definedAnywhere lines (resolveRefId m.1 m.2))).map
          (fun m => undefRefIssue i m.1 m.2) := by
  intro ms
  induction ms with
  | nil => rfl
  | cons m rest ih =>
    rw [concatMap, ih, refLinkIssues]
    by_cases hd : definedAnywhere lines (resolveRefId m.1 m.2) = false
    · rw [if_pos ((refTable_none_iff lines _).mpr hd)]
      rw [List.filter_cons_of_pos (by simp [hd])]
      rfl
    · have hd2 : definedAnywhere lines (resolveRefId m.1 m.2) = true := by
        revert hd
        cases definedAnywhere lines (resolveRefId m.1 m.2) <;> simp
      rw [if_neg (fun hnone => hd ((refTable_none_iff lines _).mp hnone))]
      rw [List.filter_cons_of_neg (by simp [hd2])]
      rfl

/-- C4: the `undefined_reference` issues produced by `validate_links` are
exactly one issue per reference-style link usage `[text][ref]` (the text
group is nonempty by the pattern) whose resolved identifier — the lowercased
second bracket, defaulting to the lowercased link text when that bracket is
empty — has no matching definition anywhere in the document, matching
case-insensitively; each such issue is an error at the usage line, and any
definition line for the identifier (whatever its letter case) prevents the
issue. -/
theorem undefined_reference_exact (env : Env) (base : String) (lines : List (List Char)) :
    ((validate_links env base lines).filter
        (fun iss => iss.issue_type == "undefined_reference") =
      concatMap (fun p =>
        ((findRefs p.2).filter
            (fun m => !definedAnywhere lines (resolveRefId m.1 m.2))).map
          (fun m => undefRefIssue p.1 m.1 m.2)) (pyEnum 1 lines)) ∧
    (∀ (i : Nat) (t r : List Char),
      (undefRefIssue i t r).severity = "error" ∧ (undefRefIssue i t r).line_number = i) ∧
    (∀ (l r u : List Char), l ∈ lines → refDefOf l = some (r, u) →
      definedAnywhere lines (lowerStr r) = true) := by
  refine ⟨?_, ?_, ?_⟩
  · show (concatMap (fun p => lineLinkIssues env base (refTable lines) p.1 p.2)
      (pyEnum 1 lines)).filter (fun iss => iss.issue_type == "undefined_reference") = _
    rw [filter_concatMap]
    apply concatMap_congr
    intro p _
    rw [lineLinkIssues, List.filter_append]
    have h1 : (concatMap (fun m => inlineLinkIssues env base p.1 m.1 m.2)
        (findLinks p.2)).filter (fun iss => iss.issue_type == "undefined_reference") = [] := by
      rw [List.filter_eq_nil_iff]
      intro a ha
      obtain ⟨m, _, hm⟩ := mem_concatMap.mp ha
      have hne := inlineLinkIssues_not_undef env base p.1 m.1 m.2 a hm
      simp [hne]
    have h2 : (concatMap (fun m => refLinkIssues (refTable lines) p.1 m.1 m.2)
        (findRefs p.2)).filter (fun iss => iss.issue_type == "undefined_reference") =
        concatMap (fun m => refLinkIssues (refTable lines) p.1 m.1 m.2) (findRefs p.2) := by
      rw [List.filter_eq_self]
      intro a ha
      obtain ⟨m, _, hm⟩ := mem_concatMap.mp ha
      rw [refLinkIssues] at hm
      split at hm
      · rw [List.mem_singleton] at hm
        subst hm
        simp [undefRefIssue]
      · simp at hm
    rw [h1, h2, List.nil_append]
    exact concatMap_refLink lines p.1 (findRefs p.2)
  · intro i t r
    exact ⟨rfl, rfl⟩
  · intro l r u hl hdef
    rw [definedAnywhere, List.any_eq_true]
    refine ⟨l, hl, ?_⟩
    rw [hdef]
    simp

/-- Witness for C4: `[a][missing]` is unresolved, `[x][Ref]` resolves
case-insensitively against the definition line `[REF]: url`. -/
theorem undefined_reference_exact_witness :
    (("[REF]: url").data ∈
        [("[a][missing]").data, ("[x][Ref]").data, ("[REF]: url").data] ∧
      refDefOf ("[REF]: url").data = some (("REF").data, ("url").data)) ∧
    definedAnywhere [("[a][missing]").data, ("[x][Ref]").data, ("[REF]: url").data]
      (lowerStr ("REF").data) = true ∧
    (validate_links stubEnv "/b"
        [("[a][missing]").data, ("[x][Ref]").data, ("[REF]: url").data]).filter
        (fun iss => iss.issue_type == "undefined_reference") =
      concatMap (fun p =>
        ((findRefs p.2).filter
            (fun m => !definedAnywhere
              [("[a][missing]").data, ("[x][Ref]").data, ("[REF]: url").data]
              (resolveRefId m.1 m.2))).map
          (fun m => undefRefIssue p.1 m.1 m.2))
        (pyEnum 1 [("[a][missing]").data, ("[x][Ref]").data, ("[REF]: url").data]) :=
  ⟨⟨by decide, by decide⟩,
    (undefined_reference_exact stubEnv "/b"
      [("[a][missing]").data, ("[x][Ref]").data, ("[REF]: url").data]).2.2
      ("[REF]: url").data ("REF").data ("url").data (by decide) (by decide),
    (undefined_reference_exact stubEnv "/b"
      [("[a][missing]").data, ("[x][Ref]").data, ("[REF]: url").data]).1⟩

/-! ## Image/link double-report (C10) -/

theorem takeWhile_all {p : Char → Bool} : ∀ {l : List Char},
    (∀ c ∈ l, p c = true) → l.takeWhile p = l := by
  intro l
  induction l with
  | nil => intro _; rfl
  | cons c cs ih =>
    intro h
    rw [List.takeWhile_cons_of_pos (h c (by simp))]
    rw [ih (fun x hx => h x (by simp [hx]))]

/-- The inline-link pattern matches a whole `[alt](url)` segment when the
text group contains no `]` and the url group no `)`. -/
theorem linkAt_exact (a u : List Char) (ha : ∀ c ∈ a, c ≠ ']')
    (hu : ∀ c ∈ u, c ≠ ')') :
    linkAt ('[' :: (a ++ (']' :: '(' :: (u ++ [')'])))) = some (a, u, []) := by
  have hdw1 : (a ++ (']' :: '(' :: (u ++ [')']))).dropWhile (fun c => c ≠ ']') =
      ']' :: '(' :: (u ++ [')']) := by
    rw [List.dropWhile_append_of_pos (fun x hx => by simpa using ha x hx)]
    exact List.dropWhile_cons_of_neg (by simp)
  have htw1 : (a ++ (']' :: '(' :: (u ++ [')']))).takeWhile (fun c => c ≠ ']') = a := by
    rw [List.takeWhile_append_of_pos (fun x hx => by simpa using ha x hx)]
    rw [List.takeWhile_cons_of_neg (by simp)]
    simp
  have hdw2 : (u ++ [')']).dropWhile (fun c => c ≠ ')') = [')'] := by
    rw [List.dropWhile_append_of_pos (fun x hx => by simpa using hu x hx)]
    exact List.dropWhile_cons_of_neg (by simp)
  have htw2 : (u ++ [')']).takeWhile (fun c => c ≠ ')') = u := by
    rw [List.takeWhile_append_of_pos (fun x hx => by simpa using hu x hx)]
    rw [List.takeWhile_cons_of_neg (by simp)]
    simp
  simp only [linkAt, hdw1, htw1, hdw2, htw2]

theorem findLinks_cons_none {c : Char} {cs : List Char}
    (h : linkAt (c :: cs) = none) : findLinks (c :: cs) = findLinks cs := by
  rw [findLinks_cons, h]

theorem findLinks_cons_some {c : Char} {cs t u r : List Char}
    (h : linkAt (c :: cs) = some (t, u, r)) :
    findLinks (c :: cs) = (t, u) :: findLinks r := by
  rw [findLinks_cons, h]

theorem findImgs_cons_none {c : Char} {cs : List Char}
    (h : imgAt (c :: cs) = none) : findImgs (c :: cs) = findImgs cs := by
  rw [findImgs_cons, h]

theorem findImgs_cons_some {c : Char} {cs t u r : List Char}
    (h : imgAt (c :: cs) = some (t, u, r)) :
    findImgs (c :: cs) = (t, u) :: findImgs r := by
  rw [findImgs_cons, h]

/-- On a line that is exactly an image, the inline-link scanner finds
exactly the `[alt](url)` segment. -/
theorem findLinks_image (a u : List Char) (ha : ∀ c ∈ a, c ≠ ']')
    (hu : ∀ c ∈ u, c ≠ ')') :
    findLinks ('!' :: '[' :: (a ++ (']' :: '(' :: (u ++ [')'])))) = [(a, u)] := by
  rw [findLinks_cons_none (by simp [linkAt])]
  rw [findLinks_cons_some (linkAt_exact a u ha hu)]
  rfl

/-- On a line that is exactly an image, the image scanner finds exactly the
image. -/
theorem findImgs_image (a u : List Char) (ha : ∀ c ∈ a, c ≠ ']')
    (hu : ∀ c ∈ u, c ≠ ')') :
    findImgs ('!' :: '[' :: (a ++ (']' :: '(' :: (u ++ [')'])))) = [(a, u)] := by
  rw [findImgs_cons_some (show imgAt ('!' :: '[' :: (a ++ (']' :: '(' :: (u ++ [')'])))) =
    some (a, u, []) from linkAt_exact a u ha hu)]
  rfl

theorem pyEnum_mem_middle : ∀ (pre : List α) (n : Nat) (x : α) (post : List α),
    (n + pre.length, x) ∈ pyEnum n (pre ++ x :: post) := by
  intro pre
  induction pre with
  | nil =>
    intro n x post
    simp [pyEnum]
  | cons p ps ih =>
    intro n x post
    rw [List.cons_append, pyEnum, List.mem_cons]
    right
    have harith : n + (p :: ps).length = n + 1 + ps.length := by
      simp
      omega
    rw [harith]
    exact ih (n + 1) x post

theorem mem_validate_all_lines {env : Env} {base : String}
    {lines : List (List Char)} {iss : ValidationIssue}
    (h : iss ∈ rawIssues env base lines) : iss ∈ validate_all_lines env base lines := by
  rw [validate_all_lines]
  exact List.mem_mergeSort.mpr h

/-- C10: for a line consisting of an image `![alt](url)` whose url is a
non-empty relative path (no external scheme, no `#`, already stripped) to a
file that does not exist under the base directory, the orchestrated result
contains two issues at that line for the same image: a `broken_local_link`
error — because the inline-link pattern of the Link/Reference Checker also
matches the `[alt](url)` portion of the image syntax — and a
`missing_image` error from the Image Checker. -/
theorem image_double_report (env : Env) (base : String)
    (pre post : List (List Char)) (alt url : List Char)
    (halt : ∀ c ∈ alt, c ≠ ']')
    (hurl : ∀ c ∈ url, c ≠ ')' ∧ c ≠ '#')
    (hne : url ≠ [])
    (hstrip : stripList url = url)
    (hsch : hasPre "http://" url = false ∧ hasPre "https://" url = false ∧
      hasPre "mailto:" url = false ∧ hasPre "tel:" url = false ∧
      hasPre "data:" url = false)
    (hfs : env.fs (osJoin base (String.mk url)) = false) :
    ((⟨pre.length + 1, "broken_local_link", "error",
        "Local file not found: " ++ String.mk url,
        String.mk ('[' :: (alt ++ (']' :: '(' :: (url ++ [')'])))),
        "Verify file exists at: " ++ osJoin base (String.mk url)⟩ : ValidationIssue) ∈
      validate_all_lines env base
        (pre ++ ('!' :: '[' :: (alt ++ (']' :: '(' :: (url ++ [')'])))) :: post)) ∧
    ((⟨pre.length + 1, "missing_image", "error",
        "Image file not found: " ++ String.mk url,
        String.mk ('!' :: '[' :: (alt ++ (']' :: '(' :: (url ++ [')'])))),
        "Add image at: " ++ osJoin base (String.mk url)⟩ : ValidationIssue) ∈
      validate_all_lines env base
        (pre ++ ('!' :: '[' :: (alt ++ (']' :: '(' :: (url ++ [')'])))) :: post)) := by
  have hu2 : ∀ c ∈ url, c ≠ ')' := fun c hc => (hurl c hc).1
  have hhead : ¬ (url.head? = some '#') := by
    cases url with
    | nil => exact absurd rfl hne
    | cons c cs =>
      intro hcon
      rw [List.head?_cons, Option.some_inj] at hcon
      exact (hurl c (by simp)).2 hcon
  have hpres : (!(hasPre "http://" url || hasPre "https://" url ||
      hasPre "mailto:" url || hasPre "tel:" url)) = true := by
    rw [hsch.1, hsch.2.1, hsch.2.2.1, hsch.2.2.2.1]
    rfl
  have hpres2 : (!(hasPre "http://" url || hasPre "https://" url ||
      hasPre "data:" url)) = true := by
    rw [hsch.1, hsch.2.1, hsch.2.2.2.2]
    rfl
  have htw : url.takeWhile (fun c => c ≠ '#') = url :=
    takeWhile_all (fun c hc => by simpa using (hurl c hc).2)
  have hmem : (pre.length + 1,
      '!' :: '[' :: (alt ++ (']' :: '(' :: (url ++ [')'])))) ∈
      pyEnum 1 (pre ++ ('!' :: '[' :: (alt ++ (']' :: '(' :: (url ++ [')'])))) :: post) := by
    have := pyEnum_mem_middle pre 1
      ('!' :: '[' :: (alt ++ (']' :: '(' :: (url ++ [')'])))) post
    rwa [Nat.add_comm 1 pre.length] at this
  constructor
  · apply mem_validate_all_lines
    simp only [rawIssues, List.mem_append]
    refine Or.inl (Or.inl (Or.inl (Or.inl (Or.inl (Or.inr ?_)))))
    show _ ∈ concatMap
      (fun p => lineLinkIssues env base
        (refTable (pre ++ ('!' :: '[' :: (alt ++ (']' :: '(' :: (url ++ [')'])))) :: post))
        p.1 p.2)
      (pyEnum 1 (pre ++ ('!' :: '[' :: (alt ++ (']' :: '(' :: (url ++ [')'])))) :: post))
    apply mem_concatMap.mpr
    refine ⟨(pre.length + 1, '!' :: '[' :: (alt ++ (']' :: '(' :: (url ++ [')'])))),
      hmem, ?_⟩
    rw [lineLinkIssues]
    apply List.mem_append.mpr
    left
    rw [findLinks_image alt url halt hu2, concatMap, concatMap, List.append_nil]
    simp only [inlineLinkIssues]
    apply List.mem_append.mpr
    right
    rw [hstrip, if_neg hne]
    simp only [validateUrl]
    rw [if_neg hhead, if_pos hpres, htw]
    rw [if_neg (by rw [hfs]; simp)]
    simp
  · apply mem_validate_all_lines
    simp only [rawIssues, List.mem_append]
    refine Or.inl (Or.inl (Or.inr ?_))
    rw [validate_images]
    apply mem_concatMap.mpr
    refine ⟨(pre.length + 1, '!' :: '[' :: (alt ++ (']' :: '(' :: (url ++ [')'])))),
      hmem, ?_⟩
    rw [findImgs_image alt url halt hu2, concatMap, concatMap, List.append_nil]
    simp only [imageIssues]
    apply List.mem_append.mpr
    right
    rw [hstrip, if_neg hne, if_pos hpres2]
    rw [if_neg (by rw [hfs]; simp)]
    simp

/-- Witness for C10: the single-line document `![a](img.png)` with no file
present reports both a `broken_local_link` and a `missing_image` at line 1. -/
theorem image_double_report_witness :
    ((⟨List.length ([] : List (List Char)) + 1, "broken_local_link", "error",
        "Local file not found: " ++ String.mk ("img.png").data,
        String.mk ('[' :: (("a").data ++ (']' :: '(' :: (("img.png").data ++ [')'])))),
        "Verify file exists at: " ++ osJoin "/b" (String.mk ("img.png").data)⟩ :
          ValidationIssue) ∈
      validate_all_lines stubEnv "/b"
        ([] ++ ('!' :: '[' :: (("a").data ++
          (']' :: '(' :: (("img.png").data ++ [')'])))) :: [])) ∧
    ((⟨List.length ([] : List (List Char)) + 1, "missing_image", "error",
        "Image file not found: " ++ String.mk ("img.png").data,
        String.mk ('!' :: '[' :: (("a").data ++
          (']' :: '(' :: (("img.png").data ++ [')'])))),
        "Add image at: " ++ osJoin "/b" (String.mk ("img.png").data)⟩ :
          ValidationIssue) ∈
      validate_all_lines stubEnv "/b"
        ([] ++ ('!' :: '[' :: (("a").data ++
          (']' :: '(' :: (("img.png").data ++ [')'])))) :: [])) :=
  image_double_report stubEnv "/b" [] [] ("a").data ("img.png").data
    (by decide) (by decide) (by decide) (by decide)
    ⟨by decide, by decide, by decide, by decide, by decide⟩ rfl
